import Mathlib

/-!
Shallow embedding of `src/zxing-wasm-qrcode-decoder.ts` from the
html5-qrcode repository: the `ZXingWasmQrcodeDecoder` adapter wrapping the
zxing-wasm decoding engine.

Modelling conventions:
* JavaScript `Map` objects are modelled as association lists in insertion
  order; `Map.get` returns the value of the (unique) matching key,
  `Map.has` tests membership, `Map.set` overwrites an existing key in
  place or appends a fresh one, `Map.forEach` iterates in insertion order.
* A `Promise` that either resolves with a value or rejects with a thrown
  value is modelled as `Except String`, the thrown values in this file all
  being strings (the source throws bare strings).
* The external engine call `readBarcodesFromImageData` is opaque: `decode`
  is modelled as a function of the result list the engine returns.
* `Logger.logError` (from `./core`, not part of the sources) is modelled
  by accumulating the offending format values in a returned log list.
-/

/-- Modelled from the spec: the host-side Symbology Enum
`Html5QrcodeSupportedFormats` is declared in `./core`, which is not among
the sources.  The spec lists the fourteen kinds present in the format
table and requires the closed host set to also contain kinds absent from
the table (its construction test uses such an entry); those extra members
are `RSS_14`, `RSS_EXPANDED` and `UPC_EAN_EXTENSION`. -/
inductive Html5QrcodeSupportedFormats where
  | QR_CODE
  | AZTEC
  | CODABAR
  | CODE_39
  | CODE_93
  | CODE_128
  | DATA_MATRIX
  | MAXICODE
  | ITF
  | EAN_13
  | EAN_8
  | PDF_417
  | UPC_A
  | UPC_E
  | RSS_14
  | RSS_EXPANDED
  | UPC_EAN_EXTENSION
  deriving DecidableEq, Repr, Fintype

/-- `Map.get k`: value of the first entry whose key equals `k`. -/
def mapGet [BEq α] (m : List (α × β)) (k : α) : Option β :=
  (m.find? (fun p => p.1 == k)).map (fun p => p.2)

/-- `Map.has k`: whether some entry has key `k`. -/
def mapHas [BEq α] (m : List (α × β)) (k : α) : Bool :=
  m.any (fun p => p.1 == k)

/-- `Map.set k v`: overwrite the entry for `k` in place if present,
otherwise append a fresh entry (JavaScript `Map` insertion-order
semantics). -/
def mapSet [BEq α] (m : List (α × β)) (k : α) (v : β) : List (α × β) :=
  if m.any (fun p => p.1 == k) then
    m.map (fun p => if p.1 == k then (k, v) else p)
  else
    m ++ [(k, v)]

/-- The fixed forward format table `formatMap` of the adapter:
host symbology kind to engine string tag, in source order. -/
def formatMap : List (Html5QrcodeSupportedFormats × String) :=
  [ (Html5QrcodeSupportedFormats.QR_CODE, "QRCode"),
    (Html5QrcodeSupportedFormats.AZTEC, "Aztec"),
    (Html5QrcodeSupportedFormats.CODABAR, "Codabar"),
    (Html5QrcodeSupportedFormats.CODE_39, "Code39"),
    (Html5QrcodeSupportedFormats.CODE_93, "Code93"),
    (Html5QrcodeSupportedFormats.CODE_128, "Code128"),
    (Html5QrcodeSupportedFormats.DATA_MATRIX, "DataMatrix"),
    (Html5QrcodeSupportedFormats.MAXICODE, "MaxiCode"),
    (Html5QrcodeSupportedFormats.ITF, "ITF"),
    (Html5QrcodeSupportedFormats.EAN_13, "EAN-13"),
    (Html5QrcodeSupportedFormats.EAN_8, "EAN-8"),
    (Html5QrcodeSupportedFormats.PDF_417, "PDF417"),
    (Html5QrcodeSupportedFormats.UPC_A, "UPC-A"),
    (Html5QrcodeSupportedFormats.UPC_E, "UPC-E") ]

/-- `createReverseFormatMap`: `formatMap.forEach((value, key) =>
result.set(value, key))` in insertion order. -/
def createReverseFormatMap : List (String × Html5QrcodeSupportedFormats) :=
  formatMap.foldl (fun result p => mapSet result p.2 p.1) []

/-- The adapter's `reverseFormatMap` field, initialised once from the
forward table. -/
def reverseFormatMap : List (String × Html5QrcodeSupportedFormats) :=
  createReverseFormatMap

/-- JavaScript `String.prototype.endsWith`: the characters of `post` are a
suffix of the characters of `s`. -/
def strEndsWith (s post : String) : Bool :=
  decide (post.data <:+ s.data)

/-- Constructor fragment: `if (!this.wasmLocationOverride.endsWith("/"))
this.wasmLocationOverride += "/";` -/
def normalizeWasmLocationOverride (p : String) : String :=
  if strEndsWith p "/" then p else p ++ "/"

/-- The `locateFile` resolver the constructor registers through
`setZXingModuleOverrides` when an override path is supplied; its first
argument is the (already normalised) stored override path, then the
requested `path` and the engine's default `pfx` (named `prefix` in the
source). -/
def locateFile (wasmLocationOverride : String) (path pfx : String) : String :=
  if strEndsWith path ".wasm" then wasmLocationOverride ++ path
  else pfx ++ path

/-- `createZXingFormats`: translate the requested host kinds into engine
tags in input order; a kind found in `formatMap` contributes its tag, a
kind absent from it is logged (`logger.logError`, modelled by returning
the offending kind in the second component) and dropped.
`Map.has` holds exactly when `Map.get` is not `undefined`, so the
source's has-then-get guard is rendered as one match on `mapGet`. -/
def createZXingFormats :
    List Html5QrcodeSupportedFormats →
    List String × List Html5QrcodeSupportedFormats
  | [] => ([], [])
  | f :: rest =>
    match mapGet formatMap f with
    | some tag =>
      let r := createZXingFormats rest
      (tag :: r.1, r.2)
    | none =>
      let r := createZXingFormats rest
      (r.1, f :: r.2)

/-- The `DecodeHints` shape handed to the engine. -/
structure DecodeHints where
  tryHarder : Bool
  formats : List String
  maxNumberOfSymbols : Nat
  deriving DecidableEq, Repr

/-- An engine `ReadResult`: recognized text and engine symbology tag. -/
structure ReadResult where
  text : String
  format : String
  deriving DecidableEq, Repr

/-- Modelled from the spec: `QrcodeResultFormat` lives in `./core`, not
among the sources; per the spec the host `Result.format` is the mapped
Symbology Enum value, so `create` wraps that value. -/
structure QrcodeResultFormat where
  format : Html5QrcodeSupportedFormats
  deriving DecidableEq, Repr

/-- Modelled from the spec: `QrcodeResultFormat.create` packages a host
symbology kind as the host result's format field. -/
def QrcodeResultFormat.create (f : Html5QrcodeSupportedFormats) :
    QrcodeResultFormat :=
  { format := f }

/-- Modelled from the spec: host debug metadata identifying the producing
engine (`QrcodeResultDebugData` is declared in `./core`). -/
structure QrcodeResultDebugData where
  decoderName : String
  deriving DecidableEq, Repr

/-- The host `QrcodeResult` shape returned by a successful decode. -/
structure QrcodeResult where
  text : String
  format : QrcodeResultFormat
  debugData : QrcodeResultDebugData
  deriving DecidableEq, Repr

/-- `createDebugData`: fixed metadata naming this adapter's engine. -/
def createDebugData : QrcodeResultDebugData :=
  { decoderName := "zxing-wasm" }

/-- `toHtml5QrcodeSupportedFormats`: reverse-map an engine tag; a tag
absent from the reverse table throws
`reverseFormatMap doesn't have ${zxingFormat}`. -/
def toHtml5QrcodeSupportedFormats (zxingFormat : String) :
    Except String Html5QrcodeSupportedFormats :=
  match mapGet reverseFormatMap zxingFormat with
  | none => Except.error ("reverseFormatMap doesn't have " ++ zxingFormat)
  | some f => Except.ok f

/-- `decode`, as a function of the result list returned by the engine
call `readBarcodesFromImageData(imageData, this.decodeHints)`: an empty
list throws `No code found`; otherwise only `result[0]` is used, its tag
reverse-mapped (which may itself throw) and the host result assembled. -/
def decode : List ReadResult → Except String QrcodeResult
  | [] => Except.error "No code found"
  | res :: _ =>
    match toHtml5QrcodeSupportedFormats res.format with
    | Except.error e => Except.error e
    | Except.ok fmt =>
      Except.ok
        { text := res.text,
          format := QrcodeResultFormat.create fmt,
          debugData := createDebugData }

/-- The per-instance state of a constructed adapter (the `formatMap` and
`reverseFormatMap` fields are `readonly` and initialised identically for
every instance, so they are the top-level constants above; the `logger`
capability is modelled by the log list the constructor returns). -/
structure ZXingWasmQrcodeDecoder where
  verbose : Bool
  decodeHints : DecodeHints
  wasmLocationOverride : Option String
  deriving Repr

/-- Everything the constructor produces: the instance state, the sequence
of `logError` calls, and the process-wide `locateFile` resolver it
registers through `setZXingModuleOverrides` (when an override is given). -/
structure ConstructionResult where
  decoder : ZXingWasmQrcodeDecoder
  loggedErrors : List Html5QrcodeSupportedFormats
  registeredLocateFile : Option (String → String → String)

/-- The `ZXingWasmQrcodeDecoder` constructor: normalise and store the
optional override path and register the resolver, translate the requested
formats, and assemble the hints
`{ tryHarder: false, formats, maxNumberOfSymbols: 1 }`. -/
def newZXingWasmQrcodeDecoder
    (requestedFormats : List Html5QrcodeSupportedFormats)
    (verbose : Bool)
    (wasmLocationOveride : Option String) : ConstructionResult :=
  let wlo := wasmLocationOveride.map normalizeWasmLocationOverride
  let reg := wlo.map (fun o => locateFile o)
  let r := createZXingFormats requestedFormats
  { decoder :=
      { verbose := verbose,
        decodeHints :=
          { tryHarder := false,
            formats := r.1,
            maxNumberOfSymbols := 1 },
        wasmLocationOverride := wlo },
    loggedErrors := r.2,
    registeredLocateFile := reg }

/-- The `decode` method as a state transformer on the instance: its body
reads `this.decodeHints` and `this.reverseFormatMap` but assigns no field,
so the post-state is the pre-state unchanged. -/
def ZXingWasmQrcodeDecoder.decodeCall (d : ZXingWasmQrcodeDecoder)
    (engineResults : List ReadResult) :
    Except String QrcodeResult × ZXingWasmQrcodeDecoder :=
  (decode engineResults, d)

/-- `Map.has` holds exactly when `Map.get` succeeds. -/
lemma mapHas_eq_isSome [BEq α] (m : List (α × β)) (k : α) :
    mapHas m k = (mapGet m k).isSome := by
  rw [Bool.eq_iff_iff]
  simp [mapHas, mapGet, List.any_eq_true, List.find?_isSome]

/-- The forward table assigns distinct tags to distinct kinds. -/
lemma formatMap_get_injective :
    ∀ f g : Html5QrcodeSupportedFormats,
      (mapGet formatMap f).isSome = true →
      mapGet formatMap f = mapGet formatMap g → f = g := by
  decide

example : mapGet reverseFormatMap "QRCode"
    = some Html5QrcodeSupportedFormats.QR_CODE := by decide

example : mapGet reverseFormatMap "bogus" = none := by decide

example : decode [] = Except.error "No code found" := rfl

example : normalizeWasmLocationOverride "a" = "a/" := by decide

example : normalizeWasmLocationOverride "a//" = "a//" := by decide

/-- C1: for every non-empty engine result list, `decode` resolves with the
host result whose text is the first result's text, whose format is the
reverse-table image of the first result's tag, and whose debug data is the
fixed `zxing-wasm` metadata; and the value of `decode` never depends on
any result after the first. -/
theorem decode_uses_first_result_only :
    (∀ (r : ReadResult) (rest : List ReadResult)
        (f : Html5QrcodeSupportedFormats),
        mapGet reverseFormatMap r.format = some f →
        decode (r :: rest) =
          Except.ok
            { text := r.text,
              format := QrcodeResultFormat.create f,
              debugData := { decoderName := "zxing-wasm" } }) ∧
    (∀ (r : ReadResult) (rest rest' : List ReadResult),
        decode (r :: rest) = decode (r :: rest')) := by
  constructor
  · intro r rest f h
    simp [decode, toHtml5QrcodeSupportedFormats, h, createDebugData]
  · intro r rest rest'
    rfl

theorem decode_uses_first_result_only_witness :
    decode [⟨"hello", "QRCode"⟩, ⟨"other", "Aztec"⟩] =
      Except.ok
        { text := "hello",
          format := QrcodeResultFormat.create
            Html5QrcodeSupportedFormats.QR_CODE,
          debugData := { decoderName := "zxing-wasm" } } :=
  decode_uses_first_result_only.1 ⟨"hello", "QRCode"⟩ [⟨"other", "Aztec"⟩]
    Html5QrcodeSupportedFormats.QR_CODE (by decide)

/-- C2: an empty engine result list makes `decode` reject with the
`No code found` error, and this error value is distinguishable from every
consistency error the reverse mapping can throw. -/
theorem decode_empty_rejects_not_found :
    decode [] = Except.error "No code found" ∧
    ∀ tag : String,
      ("No code found" : String) ≠ "reverseFormatMap doesn't have " ++ tag := by
  refine ⟨rfl, ?_⟩
  intro tag h
  have hlen := congrArg String.length h
  rw [String.length_append] at hlen
  have h13 : ("No code found" : String).length = 13 := rfl
  have h30 : ("reverseFormatMap doesn't have " : String).length = 30 := rfl
  rw [h13, h30] at hlen
  omega

theorem decode_empty_rejects_not_found_witness :
    decode [] = Except.error "No code found" ∧
    ("No code found" : String) ≠ "reverseFormatMap doesn't have " ++ "QRCode" :=
  ⟨decode_empty_rejects_not_found.1, decode_empty_rejects_not_found.2 "QRCode"⟩

/-- C3: when the first engine result's tag is absent from the reverse
table, `decode` rejects with the consistency error naming that tag, and
never resolves with any (default) symbology. -/
theorem decode_unmapped_tag_rejects_consistency :
    ∀ (r : ReadResult) (rest : List ReadResult),
      mapGet reverseFormatMap r.format = none →
      decode (r :: rest) =
        Except.error ("reverseFormatMap doesn't have " ++ r.format) ∧
      ∀ q : QrcodeResult, decode (r :: rest) ≠ Except.ok q := by
  intro r rest h
  have he : decode (r :: rest) =
      Except.error ("reverseFormatMap doesn't have " ++ r.format) := by
    simp [decode, toHtml5QrcodeSupportedFormats, h]
  exact ⟨he, fun q hq => by rw [he] at hq; cases hq⟩

theorem decode_unmapped_tag_rejects_consistency_witness :
    decode [⟨"x", "bogus"⟩] =
      Except.error ("reverseFormatMap doesn't have " ++ "bogus") :=
  (decode_unmapped_tag_rejects_consistency ⟨"x", "bogus"⟩ [] (by decide)).1

/-- C4: every kind present in the forward table maps to its tag and back
to itself through the reverse table, and the forward table is injective
on the kinds it contains. -/
theorem formatMap_round_trip :
    (∀ f : Html5QrcodeSupportedFormats,
        mapHas formatMap f = true →
        mapGet reverseFormatMap ((mapGet formatMap f).getD "") = some f) ∧
    (∀ f g : Html5QrcodeSupportedFormats,
        mapHas formatMap f = true →
        mapGet formatMap f = mapGet formatMap g → f = g) := by
  constructor
  · decide
  · intro f g hf hfg
    exact formatMap_get_injective f g (by rw [← mapHas_eq_isSome]; exact hf) hfg

theorem formatMap_round_trip_witness :
    mapGet reverseFormatMap
        ((mapGet formatMap Html5QrcodeSupportedFormats.QR_CODE).getD "")
      = some Html5QrcodeSupportedFormats.QR_CODE ∧
    Html5QrcodeSupportedFormats.QR_CODE = Html5QrcodeSupportedFormats.QR_CODE :=
  ⟨formatMap_round_trip.1 Html5QrcodeSupportedFormats.QR_CODE (by decide),
   formatMap_round_trip.2 Html5QrcodeSupportedFormats.QR_CODE
     Html5QrcodeSupportedFormats.QR_CODE (by decide) rfl⟩

/-- C5: the translated tag list consists of exactly the tags of the
table-supported requested kinds in input order, and the logged warnings
are exactly the requested kinds absent from the table, one per
occurrence, in input order. -/
theorem createZXingFormats_spec :
    ∀ fs : List Html5QrcodeSupportedFormats,
      (createZXingFormats fs).1 = fs.filterMap (fun f => mapGet formatMap f) ∧
      (createZXingFormats fs).2 = fs.filter (fun f => !(mapHas formatMap f)) := by
  intro fs
  induction fs with
  | nil => exact ⟨rfl, rfl⟩
  | cons f rest ih =>
    have hhas := mapHas_eq_isSome formatMap f
    cases h : mapGet formatMap f with
    | some tag =>
      rw [h] at hhas
      simp [createZXingFormats, h, List.filterMap_cons, List.filter_cons,
        hhas, ih.1, ih.2]
    | none =>
      rw [h] at hhas
      simp [createZXingFormats, h, List.filterMap_cons, List.filter_cons,
        hhas, ih.1, ih.2]

lemma strEndsWith_iff (s post : String) :
    strEndsWith s post = true ↔ post.data <:+ s.data := by
  simp [strEndsWith]

lemma slash_data : ("/" : String).data = ['/'] := rfl

lemma double_slash_data : ("//" : String).data = ['/', '/'] := rfl

/-- C6 counterexample: a supplied override path that already ends in a
double separator is stored unchanged, so the stored path does not end in
exactly one separator. -/
theorem wasm_override_double_separator_persists :
    normalizeWasmLocationOverride "a//" = "a//" ∧
    strEndsWith (normalizeWasmLocationOverride "a//") "//" = true := by
  constructor
  · decide
  · decide

/-- C6 (amended): the stored override path always ends with a separator;
a supplied path already ending with a separator is stored unchanged (so a
trailing double separator persists), and when the supplied path does not
end with a separator exactly one separator is appended, making the result
end with exactly one separator. -/
theorem wasm_override_normalization :
    ∀ p : String,
      strEndsWith (normalizeWasmLocationOverride p) "/" = true ∧
      (strEndsWith p "/" = true → normalizeWasmLocationOverride p = p) ∧
      (strEndsWith p "/" = false →
        normalizeWasmLocationOverride p = p ++ "/" ∧
        strEndsWith (normalizeWasmLocationOverride p) "//" = false) := by
  intro p
  by_cases h : strEndsWith p "/" = true
  · exact ⟨by simp [normalizeWasmLocationOverride, h],
      fun _ => by simp [normalizeWasmLocationOverride, h],
      fun hf => absurd h (by simp [hf])⟩
  · have hb : strEndsWith p "/" = false := by
      cases hv : strEndsWith p "/" with
      | true => exact absurd hv h
      | false => rfl
    have hnorm : normalizeWasmLocationOverride p = p ++ "/" := by
      simp [normalizeWasmLocationOverride, hb]
    have hone : strEndsWith (p ++ "/") "/" = true := by
      rw [strEndsWith_iff, String.data_append, slash_data]
      exact List.suffix_append _ _
    have hnotwo : ¬ (("//" : String).data <:+ (p ++ "/").data) := by
      rw [double_slash_data, String.data_append, slash_data]
      rintro ⟨t, ht⟩
      have ht' : (t ++ ['/']) ++ ['/'] = p.data ++ ['/'] := by
        simpa [List.append_assoc] using ht
      have h2 : t ++ ['/'] = p.data := List.append_cancel_right ht'
      have hsuf : strEndsWith p "/" = true := by
        rw [strEndsWith_iff, slash_data]
        exact ⟨t, h2⟩
      rw [hsuf] at hb
      cases hb
    exact ⟨by rw [hnorm]; exact hone,
      fun ht => absurd ht (by simp [hb]),
      fun _ => ⟨hnorm, by rw [hnorm]; exact decide_eq_false hnotwo⟩⟩

theorem wasm_override_normalization_witness :
    strEndsWith (normalizeWasmLocationOverride "assets") "/" = true ∧
    (normalizeWasmLocationOverride "assets" = "assets" ++ "/" ∧
      strEndsWith (normalizeWasmLocationOverride "assets") "//" = false) :=
  ⟨(wasm_override_normalization "assets").1,
   (wasm_override_normalization "assets").2.2 (by decide)⟩

/-- C7: with a supplied override path the constructor registers the
resolver built from the normalised override, and that resolver sends a
filename ending in `.wasm` to `override ++ filename` and every other
filename to `defaultPrefix ++ filename` unchanged. -/
theorem locateFile_override_routing :
    (∀ (fs : List Html5QrcodeSupportedFormats) (v : Bool) (o : String),
        (newZXingWasmQrcodeDecoder fs v (some o)).registeredLocateFile =
          some (locateFile (normalizeWasmLocationOverride o))) ∧
    (∀ (o path pfx : String),
        (strEndsWith path ".wasm" = true →
          locateFile (normalizeWasmLocationOverride o) path pfx =
            normalizeWasmLocationOverride o ++ path) ∧
        (strEndsWith path ".wasm" = false →
          locateFile (normalizeWasmLocationOverride o) path pfx =
            pfx ++ path)) := by
  constructor
  · intro fs v o
    rfl
  · intro o path pfx
    constructor <;> intro h <;> simp [locateFile, h]

theorem locateFile_override_routing_witness :
    locateFile (normalizeWasmLocationOverride "assets") "a.wasm" "p/" =
      normalizeWasmLocationOverride "assets" ++ "a.wasm" ∧
    locateFile (normalizeWasmLocationOverride "assets") "a.js" "p/" =
      "p/" ++ "a.js" :=
  ⟨(locateFile_override_routing.2 "assets" "a.wasm" "p/").1 (by decide),
   (locateFile_override_routing.2 "assets" "a.js" "p/").2 (by decide)⟩

/-- C8: the hints assembled at construction are exactly
`tryHarder = false`, `maxNumberOfSymbols = 1` and the translated tag
list, and the `decode` method maps a pre-state to an identical post-state:
every call observes the construction-time state. -/
theorem hints_fixed_and_decode_preserves_state :
    ∀ (fs : List Html5QrcodeSupportedFormats) (v : Bool) (o : Option String),
      (newZXingWasmQrcodeDecoder fs v o).decoder.decodeHints =
        { tryHarder := false,
          formats := (createZXingFormats fs).1,
          maxNumberOfSymbols := 1 } ∧
      ∀ (d : ZXingWasmQrcodeDecoder) (rs : List ReadResult),
        d.decodeCall rs = (decode rs, d) := by
  intro fs v o
  exact ⟨rfl, fun d rs => rfl⟩

/-- C9: constructing with an empty requested-format list logs nothing and
stores an empty enabled-tags list in the hints. -/
theorem construction_empty_formats :
    ∀ (v : Bool) (o : Option String),
      (newZXingWasmQrcodeDecoder [] v o).loggedErrors = [] ∧
      (newZXingWasmQrcodeDecoder [] v o).decoder.decodeHints.formats = [] := by
  intro v o
  exact ⟨rfl, rfl⟩

/-- C10: a table-supported kind occurring several times among the
requested formats contributes its engine tag to the translated list once
per occurrence: duplicates are preserved. -/
theorem createZXingFormats_keeps_duplicates :
    ∀ (f : Html5QrcodeSupportedFormats) (tag : String),
      mapGet formatMap f = some tag →
      ∀ fs : List Html5QrcodeSupportedFormats,
        ((createZXingFormats fs).1).count tag = fs.count f := by
  intro f tag hf fs
  induction fs with
  | nil => rfl
  | cons g rest ih =>
    cases hg : mapGet formatMap g with
    | some tg =>
      have hcons : (createZXingFormats (g :: rest)).1 =
          tg :: (createZXingFormats rest).1 := by
        simp [createZXingFormats, hg]
      by_cases hgf : g = f
      · subst hgf
        have htt : tg = tag := Option.some.inj (hg.symm.trans hf)
        subst htt
        rw [hcons, List.count_cons_self, List.count_cons_self, ih]
      · have htg : tag ≠ tg := by
          intro he
          subst he
          exact hgf (formatMap_get_injective g f (by rw [hg]; rfl)
            (by rw [hg, hf]))
        rw [hcons, List.count_cons_of_ne htg,
          List.count_cons_of_ne (Ne.symm hgf), ih]
    | none =>
      have hne : f ≠ g := by
        intro he
        rw [← he, hf] at hg
        cases hg
      have hcons : (createZXingFormats (g :: rest)).1 =
          (createZXingFormats rest).1 := by
        simp [createZXingFormats, hg]
      rw [hcons, List.count_cons_of_ne hne, ih]

theorem createZXingFormats_keeps_duplicates_witness :
    ((createZXingFormats
        [Html5QrcodeSupportedFormats.QR_CODE,
         Html5QrcodeSupportedFormats.AZTEC,
         Html5QrcodeSupportedFormats.QR_CODE]).1).count "QRCode" =
      ([Html5QrcodeSupportedFormats.QR_CODE,
        Html5QrcodeSupportedFormats.AZTEC,
        Html5QrcodeSupportedFormats.QR_CODE]).count
        Html5QrcodeSupportedFormats.QR_CODE :=
  createZXingFormats_keeps_duplicates Html5QrcodeSupportedFormats.QR_CODE
    "QRCode" (by decide)
    [Html5QrcodeSupportedFormats.QR_CODE,
     Html5QrcodeSupportedFormats.AZTEC,
     Html5QrcodeSupportedFormats.QR_CODE]
